import Mathlib

/-!
Shallow embedding of the NeuroRAG rate-limiting middleware
(`src/api_gateway/middleware/rate_limiter.py`).

Modelling choices:
* Timestamps (`time.time()`) and token counts are rationals (`ℚ`).
* A Redis sorted set whose members are `str(timestamp)` with score the
  timestamp is modelled as a `List ℚ` of scores without duplicates
  (member and score determine each other); `ZADD` on an existing member
  is a no-op on the set, as in Redis.
* The store is a function from keys to sorted sets (for the sliding
  window classes) or to an optional hash `(tokens, last_refill)` (for
  the token bucket class).
* Store failures (timeouts, connection errors, …) are injected by an
  oracle `fail : Nat → Bool`: the n-th store round trip of a run raises
  iff `fail n` is true.  A raised operation leaves its effect unapplied;
  the Python `try/except` blocks that catch it are part of each embedded
  function, which therefore returns a plain value and can never
  propagate an exception.
* Each embedded operation also reports `ops`, the number of store round
  trips it has issued, so that "contacts the store" is observable.
-/

/-- A Redis sorted set of timestamps: list of scores, no duplicates. -/
abbrev Entries := List ℚ

/-- `ZREMRANGEBYSCORE key lo hi`: remove members with score in the
closed interval `[lo, hi]` (Redis bounds are inclusive). -/
def zremrangebyscore (l : Entries) (lo hi : ℚ) : Entries :=
  l.filter (fun t => ¬ (lo ≤ t ∧ t ≤ hi))

/-- `ZCARD key`: number of members. -/
def zcard (l : Entries) : Nat := l.length

/-- `ZADD key {str(t): t}`: insert the member unless already present. -/
def zadd (l : Entries) (t : ℚ) : Entries :=
  if t ∈ l then l else t :: l

/-- `ZREM key str(t)`: remove the member scored `t`. -/
def zrem (l : Entries) (t : ℚ) : Entries :=
  l.filter (fun s => s ≠ t)

/-- `ZRANGE key 0 0 WITHSCORES`: score of the oldest member, if any. -/
def zoldest (l : Entries) : Option ℚ := l.min?

/-- Keyed store of sliding-window logs. -/
abbrev SWStore := String → Entries

/-- Point update of the store at one key. -/
def setKey (s : SWStore) (k : String) (v : Entries) : SWStore :=
  fun k' => if k' = k then v else s k'

/-- The empty store: no key has any entry. -/
def emptySW : SWStore := fun _ => []

/-- Python `int(q)`: truncation toward zero. -/
def pyInt (q : ℚ) : ℤ := if 0 ≤ q then ⌊q⌋ else ⌈q⌉

/-- Result of `RateLimiter.check_rate_limit`: the decision, the store
after the call, and the number of store round trips issued. -/
structure CheckResult where
  allowed : Bool
  store : SWStore
  ops : Nat

/-- `RateLimiter.check_rate_limit(key, window_seconds, max_requests)`.

The pipeline (prune, count, add, expire) executes as one round trip
(op `n0`); when the count is over the limit a compensating `ZREM` is a
second round trip (op `n0 + 1`).  Any raised store operation is caught
by the surrounding `try/except`, which returns `True` (fail open). -/
def check_rate_limit (fail : Nat → Bool) (store : SWStore) (n0 : Nat)
    (key : String) (now : ℚ) (window_seconds max_requests : ℤ) :
    CheckResult :=
  let l := store key
  let pruned := zremrangebyscore l 0 (now - (window_seconds : ℚ))
  let current_requests := zcard pruned
  let added := zadd pruned now
  if fail n0 then
    -- pipeline.execute() raised: nothing applied, fail open
    { allowed := true, store := store, ops := n0 + 1 }
  else if max_requests ≤ (current_requests : ℤ) then
    if fail (n0 + 1) then
      -- the compensating ZREM raised: caught, fail open, entry stays
      { allowed := true, store := setKey store key added, ops := n0 + 2 }
    else
      { allowed := false, store := setKey store key (zrem added now),
        ops := n0 + 2 }
  else
    { allowed := true, store := setKey store key added, ops := n0 + 1 }

/-- The record returned by `RateLimiter.get_rate_limit_info`. -/
structure RateLimitInfo where
  limit : ℤ
  remaining : ℤ
  reset : ℤ
  window : ℤ
deriving Repr, DecidableEq

/-- `RateLimiter.get_rate_limit_info(key, window_seconds, max_requests)`.

Three store round trips: prune (op `n0`), count (op `n0 + 1`), oldest
(op `n0 + 2`).  On any raised operation the `except` branch returns the
full-quota fallback record. -/
def get_rate_limit_info (fail : Nat → Bool) (store : SWStore) (n0 : Nat)
    (key : String) (now : ℚ) (window_seconds max_requests : ℤ) :
    RateLimitInfo × SWStore × Nat :=
  let fallback : RateLimitInfo :=
    { limit := max_requests, remaining := max_requests,
      reset := pyInt (now + (window_seconds : ℚ)), window := window_seconds }
  if fail n0 then
    (fallback, store, n0 + 1)
  else
    let pruned := zremrangebyscore (store key) 0 (now - (window_seconds : ℚ))
    let store' := setKey store key pruned
    if fail (n0 + 1) then
      (fallback, store', n0 + 2)
    else
      let current_requests := zcard pruned
      if fail (n0 + 2) then
        (fallback, store', n0 + 3)
      else
        let oldest_time := (zoldest pruned).getD now
        let reset_time := oldest_time + (window_seconds : ℚ)
        ({ limit := max_requests,
           remaining := max 0 (max_requests - (current_requests : ℤ)),
           reset := pyInt reset_time,
           window := window_seconds }, store', n0 + 3)

/-- `AdaptiveRateLimiter.update_load_factor(cpu_usage, memory_usage)`:
the load factor it stores in `self.load_factor`. -/
def update_load_factor (cpu_usage memory_usage : ℚ) : ℚ :=
  let system_load := max cpu_usage memory_usage / 100
  if 9/10 < system_load then 1/2
  else if 7/10 < system_load then 3/4
  else if 1/2 < system_load then 9/10
  else 1

/-- `AdaptiveRateLimiter.check_adaptive_rate_limit(key, window_seconds,
base_max_requests)` with the current `self.load_factor`. -/
def check_adaptive_rate_limit (fail : Nat → Bool) (store : SWStore)
    (n0 : Nat) (load_factor : ℚ) (key : String) (now : ℚ)
    (window_seconds base_max_requests : ℤ) : CheckResult :=
  let adjusted_max_requests := pyInt ((base_max_requests : ℚ) * load_factor)
  check_rate_limit fail store n0 key now window_seconds adjusted_max_requests

/-- `HierarchicalRateLimiter.check_hierarchical_limits(limits, base_key)`:
returns `(allowed, violated_limit_info)` together with the store after
the call and the running op counter. -/
def check_hierarchical_limits (fail : Nat → Bool) (store : SWStore)
    (n0 : Nat) (limits : List (ℤ × ℤ)) (base_key : String) (now : ℚ) :
    Bool × Option RateLimitInfo × SWStore × Nat :=
  match limits with
  | [] => (true, none, store, n0)
  | (window_seconds, max_requests) :: rest =>
    let key := base_key ++ ":" ++ toString window_seconds
    let r := check_rate_limit fail store n0 key now window_seconds max_requests
    if r.allowed then
      check_hierarchical_limits fail r.store r.ops rest base_key now
    else
      let q := get_rate_limit_info fail r.store r.ops key now
        window_seconds max_requests
      (false, some { q.1 with window := window_seconds }, q.2.1, q.2.2)

/-- Token-bucket hash state per key: `(tokens, last_refill)`, or absent. -/
abbrev TBStore := String → Option (ℚ × ℚ)

/-- Point update of the bucket store at one key. -/
def setBucket (s : TBStore) (k : String) (v : ℚ × ℚ) : TBStore :=
  fun k' => if k' = k then some v else s k'

/-- The empty bucket store. -/
def emptyTB : TBStore := fun _ => none

/-- Result of `TokenBucketRateLimiter.check_token_bucket`. -/
structure BucketResult where
  granted : Bool
  buckets : TBStore
  ops : Nat

/-- `TokenBucketRateLimiter.check_token_bucket(key, capacity,
refill_rate, tokens_requested)`.

Round trips: `HMGET` (op `n0`), `HMSET` (op `n0 + 1`) and, on a grant,
`EXPIRE` (op `n0 + 2`).  An absent hash reads as `(capacity, now)`.
Any raised operation is caught and the call fails open (`True`); a
raise after the `HMSET` leaves the written state in place. -/
def check_token_bucket (fail : Nat → Bool) (buckets : TBStore) (n0 : Nat)
    (key : String) (now : ℚ) (capacity : ℤ) (refill_rate : ℚ)
    (tokens_requested : ℤ) : BucketResult :=
  if fail n0 then
    { granted := true, buckets := buckets, ops := n0 + 1 }
  else
    let read := (buckets key).getD ((capacity : ℚ), now)
    let current_tokens := read.1
    let last_refill := read.2
    let time_elapsed := now - last_refill
    let tokens_to_add := time_elapsed * refill_rate
    let new_tokens := min (capacity : ℚ) (current_tokens + tokens_to_add)
    if (tokens_requested : ℚ) ≤ new_tokens then
      if fail (n0 + 1) then
        { granted := true, buckets := buckets, ops := n0 + 2 }
      else
        -- a raised EXPIRE is also caught and still returns True,
        -- with the HMSET already applied
        { granted := true,
          buckets := setBucket buckets key
            (new_tokens - (tokens_requested : ℚ), now),
          ops := n0 + 3 }
    else
      if fail (n0 + 1) then
        { granted := true, buckets := buckets, ops := n0 + 2 }
      else
        { granted := false,
          buckets := setBucket buckets key (new_tokens, now),
          ops := n0 + 2 }

/-- The no-failure oracle: every store round trip succeeds. -/
def noFail : Nat → Bool := fun _ => false

/-- A run of successive `check_rate_limit` calls on one key at the given
times, threading the store; also reports whether every call was allowed. -/
def runChecks (key : String) (w m : ℤ) :
    SWStore → List ℚ → SWStore × Bool
  | store, [] => (store, true)
  | store, t :: ts =>
    let r := check_rate_limit noFail store 0 key t w m
    let p := runChecks key w m r.store ts
    (p.1, r.allowed && p.2)

/-- A concrete client key used by witnesses and counterexamples. -/
def keyK : String := "k"

/-- A concrete hierarchical base key used by witnesses. -/
def baseC : String := "c"

/-- The 1-second-window sub-key of `baseC`. -/
def keyC1 : String := "c:1"

/-- The 60-second-window sub-key of `baseC`. -/
def keyC60 : String := "c:60"

/-- Whether every per-window check of a hierarchical evaluation allows,
threading the store and the op counter exactly as the evaluation does. -/
def all_checks_allowed (fail : Nat → Bool) :
    SWStore → Nat → List (ℤ × ℤ) → String → ℚ → Bool
  | _, _, [], _, _ => true
  | store, n0, (window_seconds, max_requests) :: rest, base_key, now =>
    let r := check_rate_limit fail store n0
      (base_key ++ ":" ++ toString window_seconds) now window_seconds
      max_requests
    r.allowed && all_checks_allowed fail r.store r.ops rest base_key now

example :
    (check_rate_limit noFail emptySW 0 keyK 5 10 1).allowed = true := by
  norm_num [check_rate_limit, noFail, zremrangebyscore, zcard, zadd, emptySW]

example :
    (check_rate_limit noFail (setKey emptySW keyK [3]) 0 keyK 5 10 1).allowed
      = false := by
  norm_num [check_rate_limit, noFail, zremrangebyscore, zcard, zadd, setKey,
    emptySW]

example :
    (check_token_bucket noFail emptyTB 0 keyK 0 10 1 4).granted = true := by
  norm_num [check_token_bucket, noFail, emptyTB]

example : pyInt (7/2) = 3 := by norm_num [pyInt]

example : pyInt (-7/2) = -3 := by
  rw [show ((-7 : ℚ)/2) = -(7/2) by norm_num]
  norm_num [pyInt, Int.ceil_neg]

/-! ### Token bucket (claims C3 and C7) -/

/-- Claim C3: `check_token_bucket` computes
`available = min(capacity, storedTokens + (now − lastRefill) * refillRate)`,
treating an absent state as `(capacity, now)`; it grants iff
`available ≥ tokensRequested`, persists `(available − tokensRequested, now)`
on a grant and `(available, now)` on a denial. -/
theorem token_bucket_refill_persist (buckets : TBStore) (key : String)
    (now : ℚ) (capacity : ℤ) (refill_rate : ℚ) (tokens_requested : ℤ) :
    let st := (buckets key).getD ((capacity : ℚ), now)
    let available := min (capacity : ℚ) (st.1 + (now - st.2) * refill_rate)
    let r := check_token_bucket noFail buckets 0 key now capacity
      refill_rate tokens_requested
    (r.granted = true ↔ (tokens_requested : ℚ) ≤ available)
    ∧ r.buckets key =
        some (if (tokens_requested : ℚ) ≤ available
          then (available - (tokens_requested : ℚ), now)
          else (available, now)) := by
  intro st available r
  have hfail : noFail 0 = false := rfl
  by_cases h : (tokens_requested : ℚ) ≤ available
  · constructor
    · constructor
      · intro _; exact h
      · intro _
        show (check_token_bucket _ _ _ _ _ _ _ _).granted = true
        simp only [check_token_bucket, noFail, Bool.false_eq_true, if_false,
          st, available] at *
        rw [if_pos h]
    · show (check_token_bucket _ _ _ _ _ _ _ _).buckets key = _
      simp only [check_token_bucket, noFail, Bool.false_eq_true, if_false,
        st, available] at *
      rw [if_pos h, if_pos h]
      simp [setBucket]
  · constructor
    · constructor
      · intro hg
        exfalso
        apply h
        revert hg
        show (check_token_bucket _ _ _ _ _ _ _ _).granted = true → _
        simp only [check_token_bucket, noFail, Bool.false_eq_true, if_false,
          st, available] at *
        rw [if_neg h]
        intro hg
        exact absurd hg (by simp)
      · intro hg; exact absurd hg h
    · show (check_token_bucket _ _ _ _ _ _ _ _).buckets key = _
      simp only [check_token_bucket, noFail, Bool.false_eq_true, if_false,
        st, available] at *
      rw [if_neg h, if_neg h]
      simp [setBucket]

/-- Claim C7: under non-negative `capacity`, `refill_rate`,
`tokens_requested`, a clock not behind the stored `last_refill`, and a
stored token count within `[0, capacity]`, the token count
`check_token_bucket` writes back stays within `[0, capacity]`,
whether the call grants or denies. -/
theorem token_bucket_state_bounds (buckets : TBStore) (key : String)
    (now : ℚ) (capacity : ℤ) (refill_rate : ℚ) (tokens_requested : ℤ)
    (hcap : 0 ≤ capacity) (hrate : 0 ≤ refill_rate)
    (hreq : 0 ≤ tokens_requested)
    (hstate : ∀ t lr, buckets key = some (t, lr) →
      0 ≤ t ∧ t ≤ (capacity : ℚ) ∧ lr ≤ now) :
    ∀ t' lr',
      (check_token_bucket noFail buckets 0 key now capacity refill_rate
        tokens_requested).buckets key = some (t', lr') →
      0 ≤ t' ∧ t' ≤ (capacity : ℚ) := by
  intro t' lr' hwrite
  have hread : 0 ≤ ((buckets key).getD ((capacity : ℚ), now)).1 ∧
      ((buckets key).getD ((capacity : ℚ), now)).1 ≤ (capacity : ℚ) ∧
      ((buckets key).getD ((capacity : ℚ), now)).2 ≤ now := by
    cases hb : buckets key with
    | none =>
      simp only [Option.getD_none]
      exact ⟨by exact_mod_cast hcap, le_refl _, le_refl _⟩
    | some p =>
      obtain ⟨t, lr⟩ := p
      simp only [Option.getD_some]
      exact hstate t lr hb
  set st := (buckets key).getD ((capacity : ℚ), now) with hst
  have helapsed : 0 ≤ (now - st.2) * refill_rate :=
    mul_nonneg (by linarith [hread.2.2]) hrate
  have havail_lo : 0 ≤ min (capacity : ℚ) (st.1 + (now - st.2) * refill_rate) := by
    apply le_min
    · exact_mod_cast hcap
    · linarith [hread.1]
  have havail_hi : min (capacity : ℚ) (st.1 + (now - st.2) * refill_rate)
      ≤ (capacity : ℚ) := min_le_left _ _
  revert hwrite
  simp only [check_token_bucket, noFail, Bool.false_eq_true, if_false]
  rw [← hst]
  by_cases h : (tokens_requested : ℚ) ≤
      min (capacity : ℚ) (st.1 + (now - st.2) * refill_rate)
  · rw [if_pos h]
    intro ht
    simp only [setBucket, eq_self_iff_true, ite_true, Option.some.injEq,
      Prod.mk.injEq] at ht
    obtain ⟨ht1, -⟩ := ht
    subst ht1
    have hreq' : (0 : ℚ) ≤ (tokens_requested : ℚ) := by exact_mod_cast hreq
    exact ⟨by linarith, by linarith⟩
  · rw [if_neg h]
    intro ht
    simp only [setBucket, eq_self_iff_true, ite_true, Option.some.injEq,
      Prod.mk.injEq] at ht
    obtain ⟨ht1, -⟩ := ht
    subst ht1
    exact ⟨havail_lo, havail_hi⟩

/-- Witness for `token_bucket_state_bounds`: a concrete call on a stored
state `(2, 0)` with capacity `10`, rate `1`, request `4` at time `3`
grants and writes back the in-range token count `1`. -/
theorem token_bucket_state_bounds_witness :
    0 ≤ (10 : ℤ) ∧
    (0 : ℚ) ≤ 1 ∧ (1 : ℚ) ≤ ((10 : ℤ) : ℚ) := by
  refine ⟨by norm_num, ?_⟩
  have h := token_bucket_state_bounds (setBucket emptyTB keyK (2, 0)) keyK
    3 10 1 4 (by norm_num) (by norm_num) (by norm_num)
    (by
      intro t lr hb
      simp only [setBucket, emptyTB, eq_self_iff_true, ite_true,
        Option.some.injEq, Prod.mk.injEq] at hb
      refine ⟨?_, ?_, ?_⟩
      · rw [← hb.1]; norm_num
      · rw [← hb.1]; norm_num
      · rw [← hb.2]; norm_num)
    1 3
    (by
      norm_num [check_token_bucket, noFail, setBucket, emptyTB, min_def])
  exact h

/-! ### Adaptive limiter (claim C6) -/

/-- The load factor is always at least `1/2` and at most `1`. -/
lemma update_load_factor_bounds (cpu mem : ℚ) :
    1/2 ≤ update_load_factor cpu mem ∧ update_load_factor cpu mem ≤ 1 := by
  simp only [update_load_factor]
  split_ifs <;> norm_num

/-- Claim C6: `update_load_factor` maps `max(cpu, mem)/100` through the
thresholds `>0.9 → 0.5`, `>0.7 → 0.75`, `>0.5 → 0.9`, else `1.0`;
`check_adaptive_rate_limit` is exactly `check_rate_limit` with
`maxRequests = int(base * loadFactor)` (truncation, which on the
non-negative products produced by the load factors is the floor), the
effective quota is never below `0`, and `update_load_factor(95, 10)`
followed by `check_adaptive_rate_limit(key, 60, 100)` enforces an
effective limit of `50`. -/
theorem adaptive_rate_limit_spec :
    (∀ cpu mem : ℚ,
      (9/10 < max cpu mem / 100 → update_load_factor cpu mem = 1/2)
      ∧ (7/10 < max cpu mem / 100 ∧ max cpu mem / 100 ≤ 9/10 →
          update_load_factor cpu mem = 3/4)
      ∧ (1/2 < max cpu mem / 100 ∧ max cpu mem / 100 ≤ 7/10 →
          update_load_factor cpu mem = 9/10)
      ∧ (max cpu mem / 100 ≤ 1/2 → update_load_factor cpu mem = 1))
    ∧ (∀ (fail : Nat → Bool) (store : SWStore) (n0 : Nat) (lf : ℚ)
        (key : String) (now : ℚ) (w base : ℤ),
        check_adaptive_rate_limit fail store n0 lf key now w base
          = check_rate_limit fail store n0 key now w (pyInt ((base : ℚ) * lf)))
    ∧ (∀ (base : ℤ) (lf : ℚ), 0 ≤ (base : ℚ) * lf →
        pyInt ((base : ℚ) * lf) = ⌊(base : ℚ) * lf⌋)
    ∧ (∀ (base : ℤ) (cpu mem : ℚ), 0 ≤ base →
        0 ≤ pyInt ((base : ℚ) * update_load_factor cpu mem))
    ∧ update_load_factor 95 10 = 1/2
    ∧ (∀ (fail : Nat → Bool) (store : SWStore) (n0 : Nat) (key : String)
        (now : ℚ),
        check_adaptive_rate_limit fail store n0 (update_load_factor 95 10)
          key now 60 100 = check_rate_limit fail store n0 key now 60 50) := by
  have hthr : ∀ cpu mem : ℚ,
      (9/10 < max cpu mem / 100 → update_load_factor cpu mem = 1/2)
      ∧ (7/10 < max cpu mem / 100 ∧ max cpu mem / 100 ≤ 9/10 →
          update_load_factor cpu mem = 3/4)
      ∧ (1/2 < max cpu mem / 100 ∧ max cpu mem / 100 ≤ 7/10 →
          update_load_factor cpu mem = 9/10)
      ∧ (max cpu mem / 100 ≤ 1/2 → update_load_factor cpu mem = 1) := by
    intro cpu mem
    simp only [update_load_factor]
    refine ⟨?_, ?_, ?_, ?_⟩ <;> intro h <;> split_ifs with h1 h2 h3 <;>
      first
        | rfl
        | (exfalso; push_neg at *; try obtain ⟨ha, hb⟩ := h) <;> linarith
  have hulf : update_load_factor 95 10 = 1/2 := by
    apply (hthr 95 10).1
    rw [max_eq_left (by norm_num : (10:ℚ) ≤ 95)]
    norm_num
  have hq : pyInt (((100 : ℤ) : ℚ) * update_load_factor 95 10) = 50 := by
    rw [hulf]
    norm_num [pyInt]
  refine ⟨hthr, fun _ _ _ _ _ _ _ _ => rfl, ?_, ?_, hulf, ?_⟩
  · intro base lf hpos
    simp [pyInt, hpos]
  · intro base cpu mem hbase
    have hlf := (update_load_factor_bounds cpu mem).1
    have hpos : 0 ≤ (base : ℚ) * update_load_factor cpu mem :=
      mul_nonneg (by exact_mod_cast hbase) (by linarith)
    simp only [pyInt, if_pos hpos]
    exact Int.floor_nonneg.mpr hpos
  · intro fail store n0 key now
    show check_rate_limit fail store n0 key now 60
        (pyInt (((100 : ℤ) : ℚ) * update_load_factor 95 10)) = _
    rw [hq]

/-- Witness for `adaptive_rate_limit_spec`: the threshold conjunct at
`(cpu, mem) = (95, 10)` and a non-negative effective quota at
`base = 100`. -/
theorem adaptive_rate_limit_spec_witness :
    update_load_factor 95 10 = 1/2 ∧
    0 ≤ pyInt (((100 : ℤ) : ℚ) * update_load_factor 95 10) :=
  ⟨(adaptive_rate_limit_spec.1 95 10).1
      (by rw [max_eq_left (by norm_num : (10:ℚ) ≤ 95)]; norm_num),
    adaptive_rate_limit_spec.2.2.2.1 100 95 10 (by norm_num)⟩

/-! ### Fail-open behaviour (claim C2) -/

/-- A hierarchical check in which every store round trip raises: each
per-window check fails open, so the whole evaluation allows, reports no
violated window, and leaves the store untouched. -/
lemma check_hierarchical_all_fail (limits : List (ℤ × ℤ)) :
    ∀ (store : SWStore) (n0 : Nat) (base_key : String) (now : ℚ),
      check_hierarchical_limits (fun _ => true) store n0 limits base_key now
        = (true, none, store, n0 + limits.length) := by
  induction limits with
  | nil =>
    intro store n0 base_key now
    simp [check_hierarchical_limits]
  | cons hd tl ih =>
    intro store n0 base_key now
    obtain ⟨w, m⟩ := hd
    have hstep : check_rate_limit (fun _ => true) store n0
        (base_key ++ ":" ++ toString w) now w m
        = { allowed := true, store := store, ops := n0 + 1 } := rfl
    simp only [check_hierarchical_limits, hstep]
    rw [if_pos trivial, ih]
    simp only [List.length_cons, Prod.mk.injEq, true_and]
    omega

/-- Claim C2: if any store round trip issued by a `check`-style call
raises, the call still returns `allowed = true` (fail open); the
embedded functions are total, so no exception reaches the caller.  For
the hierarchical variant, with every store operation raising, each
per-window check fails open and the whole call returns `(true, none)`
with the store untouched. -/
theorem fail_open_on_store_error :
    (∀ (fail : Nat → Bool) (store : SWStore) (n0 : Nat) (key : String)
        (now : ℚ) (w m : ℤ),
      (∃ i, n0 ≤ i ∧ i < (check_rate_limit fail store n0 key now w m).ops ∧
        fail i = true) →
      (check_rate_limit fail store n0 key now w m).allowed = true)
    ∧ (∀ (fail : Nat → Bool) (buckets : TBStore) (n0 : Nat) (key : String)
        (now : ℚ) (cap : ℤ) (rate : ℚ) (req : ℤ),
      (∃ i, n0 ≤ i ∧
        i < (check_token_bucket fail buckets n0 key now cap rate req).ops ∧
        fail i = true) →
      (check_token_bucket fail buckets n0 key now cap rate req).granted
        = true)
    ∧ (∀ (fail : Nat → Bool) (store : SWStore) (n0 : Nat) (lf : ℚ)
        (key : String) (now : ℚ) (w base : ℤ),
      (∃ i, n0 ≤ i ∧
        i < (check_adaptive_rate_limit fail store n0 lf key now w base).ops ∧
        fail i = true) →
      (check_adaptive_rate_limit fail store n0 lf key now w base).allowed
        = true)
    ∧ (∀ (store : SWStore) (n0 : Nat) (limits : List (ℤ × ℤ))
        (base_key : String) (now : ℚ),
      check_hierarchical_limits (fun _ => true) store n0 limits base_key now
        = (true, none, store, n0 + limits.length)) := by
  have hcheck : ∀ (fail : Nat → Bool) (store : SWStore) (n0 : Nat)
      (key : String) (now : ℚ) (w m : ℤ),
      (∃ i, n0 ≤ i ∧ i < (check_rate_limit fail store n0 key now w m).ops ∧
        fail i = true) →
      (check_rate_limit fail store n0 key now w m).allowed = true := by
    intro fail store n0 key now w m h
    simp only [check_rate_limit] at h ⊢
    split_ifs at h ⊢ with h0 hc h1
    · rfl
    · rfl
    · obtain ⟨i, hi1, hi2, hif⟩ := h
      simp only at hi2
      have : i = n0 ∨ i = n0 + 1 := by omega
      rcases this with rfl | rfl
      · exact absurd hif h0
      · exact absurd hif h1
    · rfl
  refine ⟨hcheck, ?_, ?_, fun store n0 limits base_key now =>
    check_hierarchical_all_fail limits store n0 base_key now⟩
  · intro fail buckets n0 key now cap rate req h
    simp only [check_token_bucket] at h ⊢
    split_ifs at h ⊢ with h0 hg h1 h1
    · rfl
    · rfl
    · rfl
    · rfl
    · obtain ⟨i, hi1, hi2, hif⟩ := h
      simp only at hi2
      have : i = n0 ∨ i = n0 + 1 := by omega
      rcases this with rfl | rfl
      · exact absurd hif h0
      · exact absurd hif h1
  · intro fail store n0 lf key now w base h
    exact hcheck fail store n0 key now w (pyInt ((base : ℚ) * lf)) h

/-- Witness for `fail_open_on_store_error`: a failure injected into the
only store round trip of a concrete sliding-window check makes it
return `allowed = true` even though the log is already over the limit. -/
theorem fail_open_on_store_error_witness :
    (check_rate_limit (fun _ => true) (setKey emptySW keyK [3]) 0 keyK 5
      10 0).allowed = true :=
  fail_open_on_store_error.1 (fun _ => true) (setKey emptySW keyK [3]) 0
    keyK 5 10 0 ⟨0, le_refl 0, by norm_num [check_rate_limit], rfl⟩

/-! ### Sliding-window check (claim C1) -/

/-- A run of checks on one key from a log `es` of earlier, still-fresh
entries: if the call times are strictly increasing, later than every
logged entry, within the window of a reference instant `t`, and there is
room for all of them, then every call is allowed and afterwards the log
holds exactly the call times on top of `es`. -/
lemma runChecks_allows (key : String) (w m : ℤ) (t : ℚ) :
    ∀ (ts : List ℚ) (store : SWStore) (es : Entries),
      store key = es →
      (∀ e ∈ es, t - (w : ℚ) < e) →
      (∀ s ∈ ts, t - (w : ℚ) < s ∧ s ≤ t) →
      (∀ e ∈ es, ∀ s ∈ ts, e < s) →
      ts.Pairwise (· < ·) →
      ((es.length : ℤ) + ts.length ≤ m) →
      (runChecks key w m store ts).2 = true ∧
      (runChecks key w m store ts).1 key = ts.reverse ++ es := by
  intro ts
  induction ts with
  | nil =>
    intro store es hes _ _ _ _ _
    simp [runChecks, hes]
  | cons s ts ih =>
    intro store es hes hesin hts hcross hpw hlen
    have hst : s ≤ t := (hts s (by simp)).2
    have hpruned : zremrangebyscore es 0 (s - (w : ℚ)) = es := by
      apply List.filter_eq_self.mpr
      intro e he
      have h1 : t - (w : ℚ) < e := hesin e he
      simp only [decide_eq_true_eq]
      intro hcon
      have h3 : e ≤ s - (w : ℚ) := hcon.2
      have : s - (w : ℚ) ≤ t - (w : ℚ) := by linarith
      linarith
    have hcount : (es.length : ℤ) < m := by
      simp only [List.length_cons] at hlen
      push_cast at hlen ⊢
      omega
    have hmem : s ∉ es := fun hmem =>
      lt_irrefl s (hcross s hmem s (by simp))
    have hcheck : check_rate_limit noFail store 0 key s w m
        = { allowed := true, store := setKey store key (s :: es),
            ops := 0 + 1 } := by
      simp only [check_rate_limit, noFail, Bool.false_eq_true, if_false,
        zcard, hes, hpruned]
      rw [if_neg (not_le.mpr hcount)]
      simp only [zadd, if_neg hmem]
    have hes' : setKey store key (s :: es) key = s :: es := by
      simp [setKey]
    obtain ⟨hall, hentries⟩ := ih (setKey store key (s :: es)) (s :: es) hes'
      (by
        intro e he
        rcases List.mem_cons.mp he with rfl | he'
        · exact (hts e (by simp)).1
        · exact hesin e he')
      (by
        intro s' hs'
        exact hts s' (List.mem_cons_of_mem _ hs'))
      (by
        intro e he s' hs'
        rcases List.mem_cons.mp he with rfl | he'
        · exact (List.pairwise_cons.mp hpw).1 s' hs'
        · exact hcross e he' s' (List.mem_cons_of_mem _ hs'))
      ((List.pairwise_cons.mp hpw).2)
      (by
        simp only [List.length_cons] at hlen ⊢
        push_cast at hlen ⊢
        omega)
    refine ⟨?_, ?_⟩
    · simp only [runChecks, hcheck, hall, Bool.and_true]
    · simp only [runChecks, hcheck, hentries, List.reverse_cons,
        List.append_assoc, List.singleton_append]

/-- Claim C1: a `check_rate_limit` call allows exactly when the number
of entries surviving the prune (`countBefore`) is below `maxRequests`;
consequently, after `maxRequests` allowed calls whose times all lie in
the window of the next call, that next call is denied, and a call whose
window has fully elapsed past every logged entry is allowed again. -/
theorem sliding_window_check_spec (store : SWStore) (key : String)
    (now : ℚ) (w m : ℤ) (hw : 0 < w) (hm : 0 ≤ m) :
    ((check_rate_limit noFail store 0 key now w m).allowed = true ↔
      (((zremrangebyscore (store key) 0 (now - (w : ℚ))).length : ℤ) < m))
    ∧ (∀ (ts : List ℚ) (t : ℚ), ts.Pairwise (· < ·) →
        (∀ s ∈ ts, t - (w : ℚ) < s ∧ s ≤ t) → (ts.length : ℤ) = m →
        (runChecks key w m emptySW ts).2 = true ∧
        (check_rate_limit noFail (runChecks key w m emptySW ts).1 0 key t w
          m).allowed = false)
    ∧ (∀ (store' : SWStore) (t' : ℚ), 0 < m →
        (∀ e ∈ store' key, 0 ≤ e ∧ e ≤ t' - (w : ℚ)) →
        (check_rate_limit noFail store' 0 key t' w m).allowed = true) := by
  refine ⟨?_, ?_, ?_⟩
  · simp only [check_rate_limit, noFail, Bool.false_eq_true, if_false, zcard]
    by_cases hc : m ≤ (((zremrangebyscore (store key) 0 (now - (w : ℚ))).length : ℤ))
    · rw [if_pos hc]
      simp only [Bool.false_eq_true, false_iff]
      omega
    · rw [if_neg hc]
      simp only [true_iff]
      omega
  · intro ts t hpw hin hlenm
    obtain ⟨hall, hentries⟩ := runChecks_allows key w m t ts emptySW []
      rfl (by simp) hin (by simp) hpw (by simp; omega)
    rw [List.append_nil] at hentries
    refine ⟨hall, ?_⟩
    have hp : zremrangebyscore ts.reverse 0 (t - (w : ℚ)) = ts.reverse := by
      apply List.filter_eq_self.mpr
      intro e he
      have h1 : t - (w : ℚ) < e := (hin e (List.mem_reverse.mp he)).1
      simp only [decide_eq_true_eq]
      intro hcon
      linarith [hcon.2]
    have hfull : m ≤ ((zremrangebyscore ts.reverse 0 (t - (w : ℚ))).length : ℤ) := by
      rw [hp, List.length_reverse, hlenm]
    simp only [check_rate_limit, noFail, Bool.false_eq_true, if_false, zcard,
      hentries]
    rw [if_pos hfull]
  · intro store' t' hmpos hexp
    have hp : zremrangebyscore (store' key) 0 (t' - (w : ℚ)) = [] := by
      apply List.filter_eq_nil.mpr
      intro e he
      simp only [decide_eq_true_eq, not_not]
      exact hexp e he
    simp only [check_rate_limit, noFail, Bool.false_eq_true, if_false, zcard,
      hp]
    rw [if_neg (by simpa using not_le.mpr hmpos)]

/-- Witness for `sliding_window_check_spec`: with window `10` and limit
`2`, two allowed calls at times `1` and `2` make the next call at time
`3` denied. -/
theorem sliding_window_check_spec_witness :
    0 < (10 : ℤ) ∧ 0 ≤ (2 : ℤ) ∧
    ((runChecks keyK 10 2 emptySW [1, 2]).2 = true ∧
      (check_rate_limit noFail (runChecks keyK 10 2 emptySW [1, 2]).1 0 keyK
        3 10 2).allowed = false) :=
  ⟨by norm_num, by norm_num,
    (sliding_window_check_spec emptySW keyK 0 10 2 (by norm_num)
      (by norm_num)).2.1 [1, 2] 3
      (by norm_num [List.pairwise_cons])
      (by
        intro s hs
        simp only [List.mem_cons, List.mem_singleton] at hs
        rcases hs with rfl | rfl | h
        · norm_num
        · norm_num
        · exact absurd h (List.not_mem_nil s))
      (by norm_num)⟩

/-! ### Rate-limit info (claim C4) -/

/-- A prune whose cutoff lies strictly below every entry removes
nothing. -/
lemma prune_keeps_fresh (l : Entries) (b : ℚ) (h : ∀ e ∈ l, b < e) :
    zremrangebyscore l 0 b = l := by
  apply List.filter_eq_self.mpr
  intro e he
  simp only [decide_eq_true_eq]
  intro hcon
  exact absurd (h e he) (not_lt.mpr hcon.2)

/-- A prune removes every non-negative entry at or below the cutoff. -/
lemma prune_clears_stale (l : Entries) (b : ℚ)
    (h : ∀ e ∈ l, 0 ≤ e ∧ e ≤ b) :
    zremrangebyscore l 0 b = [] := by
  apply List.filter_eq_nil_iff.mpr
  intro e he
  simp only [decide_eq_true_eq, not_not]
  exact h e he

/-- Counterexample to claim C4: with three surviving entries and a limit
of `2`, `get_rate_limit_info` reports `remaining = 0`, not
`limit − count = −1` as the claim states. -/
theorem get_info_remaining_cex :
    (get_rate_limit_info noFail (setKey emptySW keyK [0, 1, 2]) 0 keyK 2 10
        2).1.remaining
      ≠ 2 - ((zremrangebyscore ((setKey emptySW keyK [0, 1, 2]) keyK) 0
          (2 - ((10 : ℤ) : ℚ))).length : ℤ) := by
  norm_num [get_rate_limit_info, noFail, setKey, emptySW, zremrangebyscore,
    zcard, zoldest, pyInt]

/-- Claim C4 (amended): `get_rate_limit_info` reports `limit = m`,
`remaining = max(0, m − count)` over the surviving entries, and
`reset = int(oldestSurvivingScore + windowSeconds)` (truncated);
with no survivors it reports `reset = int(now + windowSeconds)` and,
for a non-negative limit, `remaining = limit`; after exactly `n`
allowed calls with `n < limit` and no expiry it reports
`remaining = limit − n`. -/
theorem get_info_spec_amended :
    (∀ (store : SWStore) (key : String) (now : ℚ) (w m : ℤ),
      let pruned := zremrangebyscore (store key) 0 (now - (w : ℚ))
      let info := (get_rate_limit_info noFail store 0 key now w m).1
      info.limit = m ∧ info.window = w
      ∧ info.remaining = max 0 (m - (pruned.length : ℤ))
      ∧ info.reset = pyInt ((zoldest pruned).getD now + (w : ℚ))
      ∧ (pruned = [] →
          info.reset = pyInt (now + (w : ℚ)) ∧ (0 ≤ m → info.remaining = m)))
    ∧ (∀ (key : String) (w m : ℤ) (ts : List ℚ) (t : ℚ),
        ts.Pairwise (· < ·) →
        (∀ s ∈ ts, t - (w : ℚ) < s ∧ s ≤ t) → ((ts.length : ℤ) < m) →
        (runChecks key w m emptySW ts).2 = true ∧
        (get_rate_limit_info noFail (runChecks key w m emptySW ts).1 0 key t
          w m).1.remaining = m - (ts.length : ℤ)) := by
  constructor
  · intro store key now w m
    simp only [get_rate_limit_info, noFail, Bool.false_eq_true, if_false,
      zcard]
    refine ⟨trivial, trivial, trivial, trivial, ?_⟩
    intro hnil
    constructor
    · rw [hnil]
      simp [zoldest]
    · intro hm0
      rw [hnil]
      simp only [List.length_nil, Nat.cast_zero, sub_zero]
      exact max_eq_right hm0
  · intro key w m ts t hpw hin hlt
    obtain ⟨hall, hentries⟩ := runChecks_allows key w m t ts emptySW []
      rfl (by simp) hin (by simp) hpw (by simp; omega)
    rw [List.append_nil] at hentries
    refine ⟨hall, ?_⟩
    have hp : zremrangebyscore ts.reverse 0 (t - (w : ℚ)) = ts.reverse :=
      prune_keeps_fresh _ _ (fun e he => (hin e (List.mem_reverse.mp he)).1)
    simp only [get_rate_limit_info, noFail, Bool.false_eq_true, if_false,
      zcard, hentries, hp, List.length_reverse]
    exact max_eq_right (by omega)

/-- Witness for `get_info_spec_amended`: after two allowed calls against
a limit of `5`, the info reports `remaining = 3`. -/
theorem get_info_spec_amended_witness :
    ((runChecks keyK 10 5 emptySW [1, 2]).2 = true ∧
      (get_rate_limit_info noFail (runChecks keyK 10 5 emptySW [1, 2]).1 0
        keyK 3 10 5).1.remaining = 5 - (([(1 : ℚ), 2].length : ℤ))) :=
  get_info_spec_amended.2 keyK 10 5 [1, 2] 3
    (by norm_num [List.pairwise_cons])
    (by
      intro s hs
      simp only [List.mem_cons, List.mem_singleton] at hs
      rcases hs with rfl | rfl | h
      · norm_num
      · norm_num
      · exact absurd h (List.not_mem_nil s))
    (by norm_num)

/-! ### Hierarchical limiter (claim C5) -/

/-- Claim C5: the hierarchical evaluation walks the window list in
order; a window whose check allows hands the threaded store to the
rest; the first window whose check denies short-circuits (the tail is
never consulted), annotates that window's info record, and yields
`(false, info)`; when every per-window check allows the result is
`(true, none)`; concretely, with windows `[(1, 2), (60, 5)]`, three
rapid calls are denied by the 1-second window. -/
theorem hierarchical_spec :
    (∀ (fail : Nat → Bool) (store : SWStore) (n0 : Nat) (base_key : String)
        (now : ℚ),
      check_hierarchical_limits fail store n0 [] base_key now
        = (true, none, store, n0))
    ∧ (∀ (fail : Nat → Bool) (store : SWStore) (n0 : Nat) (w m : ℤ)
        (rest : List (ℤ × ℤ)) (base_key : String) (now : ℚ),
      (check_rate_limit fail store n0 (base_key ++ ":" ++ toString w) now w
        m).allowed = true →
      check_hierarchical_limits fail store n0 ((w, m) :: rest) base_key now
        = check_hierarchical_limits fail
            (check_rate_limit fail store n0 (base_key ++ ":" ++ toString w)
              now w m).store
            (check_rate_limit fail store n0 (base_key ++ ":" ++ toString w)
              now w m).ops
            rest base_key now)
    ∧ (∀ (fail : Nat → Bool) (store : SWStore) (n0 : Nat) (w m : ℤ)
        (rest : List (ℤ × ℤ)) (base_key : String) (now : ℚ),
      (check_rate_limit fail store n0 (base_key ++ ":" ++ toString w) now w
        m).allowed = false →
      check_hierarchical_limits fail store n0 ((w, m) :: rest) base_key now
        = check_hierarchical_limits fail store n0 [(w, m)] base_key now)
    ∧ (∀ (fail : Nat → Bool) (store : SWStore) (n0 : Nat)
        (limits : List (ℤ × ℤ)) (base_key : String) (now : ℚ),
      all_checks_allowed fail store n0 limits base_key now = true →
      (check_hierarchical_limits fail store n0 limits base_key now).1 = true
      ∧ (check_hierarchical_limits fail store n0 limits base_key now).2.1
          = none)
    ∧ (let p := [((1 : ℤ), (2 : ℤ)), ((60 : ℤ), (5 : ℤ))]
       let h1 := check_hierarchical_limits noFail emptySW 0 p baseC 0
       let h2 := check_hierarchical_limits noFail h1.2.2.1 0 p baseC (1/10)
       let h3 := check_hierarchical_limits noFail h2.2.2.1 0 p baseC (2/10)
       h1.1 = true ∧ h2.1 = true ∧ h3.1 = false ∧
       h3.2.1 = some { limit := 2, remaining := 0, reset := 1,
                       window := 1 }) := by
  have hallow : ∀ (fail : Nat → Bool) (store : SWStore) (n0 : Nat)
      (w m : ℤ) (rest : List (ℤ × ℤ)) (base_key : String) (now : ℚ),
      (check_rate_limit fail store n0 (base_key ++ ":" ++ toString w) now w
        m).allowed = true →
      check_hierarchical_limits fail store n0 ((w, m) :: rest) base_key now
        = check_hierarchical_limits fail
            (check_rate_limit fail store n0 (base_key ++ ":" ++ toString w)
              now w m).store
            (check_rate_limit fail store n0 (base_key ++ ":" ++ toString w)
              now w m).ops
            rest base_key now := by
    intro fail store n0 w m rest base_key now h
    simp only [check_hierarchical_limits, h, if_true]
  refine ⟨fun _ _ _ _ _ => rfl, hallow, ?_, ?_, ?_⟩
  · intro fail store n0 w m rest base_key now h
    simp only [check_hierarchical_limits, h, Bool.false_eq_true, if_false]
  · intro fail store n0 limits
    induction limits generalizing store n0 with
    | nil =>
      intro base_key now _
      exact ⟨rfl, rfl⟩
    | cons hd tl ih =>
      intro base_key now hall
      obtain ⟨w, m⟩ := hd
      simp only [all_checks_allowed, Bool.and_eq_true] at hall
      rw [hallow fail store n0 w m tl base_key now hall.1]
      exact ih _ _ base_key now hall.2
  · have hk1 : (baseC ++ ":" ++ toString (1 : ℤ)) = keyC1 := by decide
    have hk60 : (baseC ++ ":" ++ toString (60 : ℤ)) = keyC60 := by decide
    have hne1 : (keyC60 = keyC1) = False := by simp [keyC60, keyC1]
    have hne2 : (keyC1 = keyC60) = False := by simp [keyC60, keyC1]
    have c1 : check_rate_limit noFail emptySW 0 keyC1 0 1 2
        = ⟨true, setKey emptySW keyC1 [0], 1⟩ := by
      norm_num [hne1, hne2, check_rate_limit, noFail, setKey, emptySW,
        zremrangebyscore, zcard, zadd]
    have c2 : check_rate_limit noFail (setKey emptySW keyC1 [0]) 1 keyC60 0
        60 5
        = ⟨true, setKey (setKey emptySW keyC1 [0]) keyC60 [0], 2⟩ := by
      norm_num [hne1, hne2, check_rate_limit, noFail, setKey, emptySW,
        zremrangebyscore, zcard, zadd]
    have c3 : check_rate_limit noFail
        (setKey (setKey emptySW keyC1 [0]) keyC60 [0]) 0 keyC1 (1/10) 1 2
        = ⟨true, setKey (setKey (setKey emptySW keyC1 [0]) keyC60 [0]) keyC1
            [1/10, 0], 1⟩ := by
      norm_num [hne1, hne2, check_rate_limit, noFail, setKey, emptySW,
        zremrangebyscore, zcard, zadd]
    have c4 : check_rate_limit noFail
        (setKey (setKey (setKey emptySW keyC1 [0]) keyC60 [0]) keyC1
          [1/10, 0]) 1 keyC60 (1/10) 60 5
        = ⟨true, setKey (setKey (setKey (setKey emptySW keyC1 [0]) keyC60
            [0]) keyC1 [1/10, 0]) keyC60 [1/10, 0], 2⟩ := by
      norm_num [hne1, hne2, check_rate_limit, noFail, setKey, emptySW,
        zremrangebyscore, zcard, zadd]
    have c5 : check_rate_limit noFail
        (setKey (setKey (setKey (setKey emptySW keyC1 [0]) keyC60 [0]) keyC1
          [1/10, 0]) keyC60 [1/10, 0]) 0 keyC1 (2/10) 1 2
        = ⟨false, setKey (setKey (setKey (setKey (setKey emptySW keyC1 [0])
            keyC60 [0]) keyC1 [1/10, 0]) keyC60 [1/10, 0]) keyC1
            [1/10, 0], 2⟩ := by
      norm_num [hne1, hne2, check_rate_limit, noFail, setKey, emptySW,
        zremrangebyscore, zcard, zadd, zrem]
    have c6 : get_rate_limit_info noFail
        (setKey (setKey (setKey (setKey (setKey emptySW keyC1 [0]) keyC60
          [0]) keyC1 [1/10, 0]) keyC60 [1/10, 0]) keyC1 [1/10, 0]) 2 keyC1
        (2/10) 1 2
        = (⟨2, 0, 1, 1⟩,
           setKey (setKey (setKey (setKey (setKey (setKey emptySW keyC1
             [0]) keyC60 [0]) keyC1 [1/10, 0]) keyC60 [1/10, 0]) keyC1
             [1/10, 0]) keyC1 [1/10, 0], 5) := by
      norm_num [hne1, hne2, get_rate_limit_info, noFail, setKey, emptySW,
        zremrangebyscore, zcard, zoldest, pyInt, List.min?, List.foldl,
        min_def]
    have hA1 : (check_rate_limit noFail emptySW 0
        (baseC ++ ":" ++ toString (1 : ℤ)) 0 1 2).allowed = true := by
      rw [hk1, c1]
    have hH1 : check_hierarchical_limits noFail emptySW 0
        [((1 : ℤ), (2 : ℤ)), ((60 : ℤ), (5 : ℤ))] baseC 0
        = (true, none, setKey (setKey emptySW keyC1 [0]) keyC60 [0], 2) := by
      rw [hallow noFail emptySW 0 1 2 [(60, 5)] baseC 0 hA1, hk1, c1]
      have hA2 : (check_rate_limit noFail (setKey emptySW keyC1 [0]) 1
          (baseC ++ ":" ++ toString (60 : ℤ)) 0 60 5).allowed = true := by
        rw [hk60, c2]
      rw [hallow noFail (setKey emptySW keyC1 [0]) 1 60 5 [] baseC 0 hA2,
        hk60, c2]
      rfl
    have hA3 : (check_rate_limit noFail
        (setKey (setKey emptySW keyC1 [0]) keyC60 [0]) 0
        (baseC ++ ":" ++ toString (1 : ℤ)) (1/10) 1 2).allowed = true := by
      rw [hk1, c3]
    have hH2 : check_hierarchical_limits noFail
        (setKey (setKey emptySW keyC1 [0]) keyC60 [0]) 0
        [((1 : ℤ), (2 : ℤ)), ((60 : ℤ), (5 : ℤ))] baseC (1/10)
        = (true, none, setKey (setKey (setKey (setKey emptySW keyC1 [0])
            keyC60 [0]) keyC1 [1/10, 0]) keyC60 [1/10, 0], 2) := by
      rw [hallow noFail (setKey (setKey emptySW keyC1 [0]) keyC60 [0]) 0 1 2
        [(60, 5)] baseC (1/10) hA3, hk1, c3]
      have hA4 : (check_rate_limit noFail
          (setKey (setKey (setKey emptySW keyC1 [0]) keyC60 [0]) keyC1
            [1/10, 0]) 1 (baseC ++ ":" ++ toString (60 : ℤ)) (1/10) 60
          5).allowed = true := by
        rw [hk60, c4]
      rw [hallow noFail (setKey (setKey (setKey emptySW keyC1 [0]) keyC60
        [0]) keyC1 [1/10, 0]) 1 60 5 [] baseC (1/10) hA4, hk60, c4]
      rfl
    have hH3 : (check_hierarchical_limits noFail
        (setKey (setKey (setKey (setKey emptySW keyC1 [0]) keyC60 [0])
          keyC1 [1/10, 0]) keyC60 [1/10, 0]) 0
        [((1 : ℤ), (2 : ℤ)), ((60 : ℤ), (5 : ℤ))] baseC (2/10)).1 = false
        ∧ (check_hierarchical_limits noFail
        (setKey (setKey (setKey (setKey emptySW keyC1 [0]) keyC60 [0])
          keyC1 [1/10, 0]) keyC60 [1/10, 0]) 0
        [((1 : ℤ), (2 : ℤ)), ((60 : ℤ), (5 : ℤ))] baseC (2/10)).2.1
          = some { limit := 2, remaining := 0, reset := 1,
                   window := 1 } := by
      simp only [check_hierarchical_limits, hk1, c5, Bool.false_eq_true,
        if_false, c6]
      exact ⟨trivial, trivial⟩
    simp only []
    rw [hH1]
    simp only []
    rw [hH2]
    simp only []
    exact ⟨trivial, trivial, hH3.1, hH3.2⟩

/-- Witness for `hierarchical_spec`: a store whose 1-second window is
already full makes the first window deny, and the evaluation of
`[(1, 2), (60, 5)]` coincides with the evaluation of `[(1, 2)]` alone
(the 60-second window is never consulted). -/
theorem hierarchical_spec_witness :
    (check_rate_limit noFail (setKey emptySW keyC1 [1/10, 0]) 0
      (baseC ++ ":" ++ toString (1 : ℤ)) (2/10) 1 2).allowed = false ∧
    check_hierarchical_limits noFail (setKey emptySW keyC1 [1/10, 0]) 0
        [((1 : ℤ), (2 : ℤ)), ((60 : ℤ), (5 : ℤ))] baseC (2/10)
      = check_hierarchical_limits noFail (setKey emptySW keyC1 [1/10, 0]) 0
          [((1 : ℤ), (2 : ℤ))] baseC (2/10) := by
  have h : (check_rate_limit noFail (setKey emptySW keyC1 [1/10, 0]) 0
      (baseC ++ ":" ++ toString (1 : ℤ)) (2/10) 1 2).allowed = false := by
    rw [show (baseC ++ ":" ++ toString (1 : ℤ)) = keyC1 from by decide]
    norm_num [check_rate_limit, noFail, setKey, emptySW, zremrangebyscore,
      zcard, zadd, zrem]
  exact ⟨h, hierarchical_spec.2.2.1 noFail (setKey emptySW keyC1 [1/10, 0])
    0 1 2 [(60, 5)] baseC (2/10) h⟩

/-! ### Parameter validation (claim C8) -/

/-- Counterexample to claim C8: a check with `windowSeconds = 0` is not
rejected synchronously — it issues its store round trip and returns
`allowed = true`; a token-bucket call with negative capacity likewise
issues two round trips and writes the bucket state back. -/
theorem no_validation_cex :
    (check_rate_limit noFail emptySW 0 keyK 0 0 5).ops = 1 ∧
    (check_rate_limit noFail emptySW 0 keyK 0 0 5).allowed = true ∧
    (check_token_bucket noFail emptyTB 0 keyK 0 (-1) 1 1).ops = 2 ∧
    (check_token_bucket noFail emptyTB 0 keyK 0 (-1) 1 1).buckets keyK
      = some (-1, 0) := by
  norm_num [check_rate_limit, check_token_bucket, noFail, emptySW, emptyTB,
    zremrangebyscore, zcard, zadd, min_def, setBucket]

/-- Claim C8 (amended): the limiter performs no parameter validation.
A `check_rate_limit` call with `windowSeconds ≤ 0` still issues its
store batch — the prune cutoff `now − windowSeconds` is at least `now`,
so every logged entry with score in `[0, now]` is discarded — and then
decides from the surviving count as usual; `check_token_bucket` with a
negative capacity still reads the store and writes a bucket state
back. -/
theorem no_validation_amended :
    (∀ (store : SWStore) (key : String) (now : ℚ) (w m : ℤ), w ≤ 0 →
      1 ≤ (check_rate_limit noFail store 0 key now w m).ops
      ∧ ((check_rate_limit noFail store 0 key now w m).allowed = true ↔
          (((zremrangebyscore (store key) 0 (now - (w : ℚ))).length : ℤ)
            < m))
      ∧ (∀ e ∈ store key, 0 ≤ e → e ≤ now →
          e ∉ zremrangebyscore (store key) 0 (now - (w : ℚ))))
    ∧ (∀ (buckets : TBStore) (key : String) (now : ℚ) (cap : ℤ) (rate : ℚ)
        (req : ℤ), cap < 0 →
      1 ≤ (check_token_bucket noFail buckets 0 key now cap rate req).ops
      ∧ (check_token_bucket noFail buckets 0 key now cap rate
          req).buckets key ≠ none) := by
  constructor
  · intro store key now w m hw
    have hwq : (0 : ℚ) ≤ now - (w : ℚ) - now := by
      have : (w : ℚ) ≤ 0 := by exact_mod_cast hw
      linarith
    refine ⟨?_, ?_, ?_⟩
    · simp only [check_rate_limit, noFail, Bool.false_eq_true, if_false]
      split_ifs <;> norm_num
    · simp only [check_rate_limit, noFail, Bool.false_eq_true, if_false,
        zcard]
      by_cases hc : m ≤
          (((zremrangebyscore (store key) 0 (now - (w : ℚ))).length : ℤ))
      · rw [if_pos hc]
        simp only [Bool.false_eq_true, false_iff]
        omega
      · rw [if_neg hc]
        simp only [true_iff]
        omega
    · intro e he he0 henow
      simp only [zremrangebyscore, List.mem_filter, decide_eq_true_eq]
      rintro ⟨-, hpred⟩
      exact hpred ⟨he0, by linarith⟩
  · intro buckets key now cap rate req hcap
    constructor
    · simp only [check_token_bucket, noFail, Bool.false_eq_true, if_false]
      split_ifs <;> norm_num
    · simp only [check_token_bucket, noFail, Bool.false_eq_true, if_false]
      split_ifs <;> simp [setBucket]

/-- Witness for `no_validation_amended`: with `windowSeconds = 0` the
check still issues a store round trip, and with capacity `−1` the token
bucket still issues its round trips. -/
theorem no_validation_amended_witness :
    (0 : ℤ) ≤ 0 ∧ (-1 : ℤ) < 0 ∧
    1 ≤ (check_rate_limit noFail emptySW 0 keyK 0 0 5).ops ∧
    1 ≤ (check_token_bucket noFail emptyTB 0 keyK 0 (-1) 1 1).ops :=
  ⟨le_refl 0, by norm_num,
    (no_validation_amended.1 emptySW keyK 0 0 5 (le_refl 0)).1,
    (no_validation_amended.2 emptyTB keyK 0 (-1) 1 1 (by norm_num)).1⟩

/-! ### Prune boundary semantics (claim C9) -/

/-- Counterexample to claim C9: an entry scored exactly
`now − windowSeconds` does not survive the prune — with the log `[0]`,
`now = 10` and `windowSeconds = 10` the prune removes it and the check
(limit 1) allows, whereas the claim predicts `countBefore = 1` and a
denial. -/
theorem prune_boundary_cex :
    ((0 : ℚ) ∈ (setKey emptySW keyK [0]) keyK) ∧
    (0 : ℚ) = 10 - ((10 : ℤ) : ℚ) ∧
    ((0 : ℚ) ∉ zremrangebyscore ((setKey emptySW keyK [0]) keyK) 0
      (10 - ((10 : ℤ) : ℚ))) ∧
    (check_rate_limit noFail (setKey emptySW keyK [0]) 0 keyK 10 10
      1).allowed = true := by
  norm_num [setKey, emptySW, zremrangebyscore, check_rate_limit, noFail,
    zcard, zadd]

/-- Claim C9 (amended): the prune removes exactly the entries with score
in the closed interval `[0, now − windowSeconds]`; a surviving entry is
one that is negative or strictly above the cutoff, `check_rate_limit`
counts exactly the survivors, `get_rate_limit_info` stores exactly the
survivors, and (for a non-negative cutoff) the entry scored exactly
`now − windowSeconds` is removed. -/
theorem prune_closed_interval (store : SWStore) (key : String) (now : ℚ)
    (w m : ℤ) :
    (∀ t : ℚ, t ∈ zremrangebyscore (store key) 0 (now - (w : ℚ)) ↔
      t ∈ store key ∧ (t < 0 ∨ now - (w : ℚ) < t))
    ∧ ((check_rate_limit noFail store 0 key now w m).allowed = true ↔
        (((zremrangebyscore (store key) 0 (now - (w : ℚ))).length : ℤ) < m))
    ∧ ((get_rate_limit_info noFail store 0 key now w m).2.1 key
        = zremrangebyscore (store key) 0 (now - (w : ℚ)))
    ∧ (0 ≤ now - (w : ℚ) →
        (now - (w : ℚ)) ∉ zremrangebyscore (store key) 0 (now - (w : ℚ))) := by
  refine ⟨?_, ?_, ?_, ?_⟩
  · intro t
    simp only [zremrangebyscore, List.mem_filter, decide_eq_true_eq]
    constructor
    · rintro ⟨h1, h2⟩
      refine ⟨h1, ?_⟩
      by_contra hcon
      push_neg at hcon
      exact h2 ⟨hcon.1, hcon.2⟩
    · rintro ⟨h1, h2⟩
      refine ⟨h1, ?_⟩
      rintro ⟨ha, hb⟩
      rcases h2 with h | h <;> linarith
  · simp only [check_rate_limit, noFail, Bool.false_eq_true, if_false, zcard]
    by_cases hc : m ≤
        (((zremrangebyscore (store key) 0 (now - (w : ℚ))).length : ℤ))
    · rw [if_pos hc]
      simp only [Bool.false_eq_true, false_iff]
      omega
    · rw [if_neg hc]
      simp only [true_iff]
      omega
  · simp [get_rate_limit_info, noFail, setKey]
  · intro hb
    simp only [zremrangebyscore, List.mem_filter, decide_eq_true_eq]
    rintro ⟨-, hpred⟩
    exact hpred ⟨hb, le_refl _⟩

/-- Witness for `prune_closed_interval`: with `now = 10` and window `10`
the cutoff is `0` and the boundary entry `0` is pruned. -/
theorem prune_closed_interval_witness :
    (0 : ℚ) ≤ 10 - ((10 : ℤ) : ℚ) ∧
    (((10 : ℚ) - ((10 : ℤ) : ℚ)) ∉ zremrangebyscore
      ((setKey emptySW keyK [0]) keyK) 0 (10 - ((10 : ℤ) : ℚ))) :=
  ⟨by norm_num,
    (prune_closed_interval (setKey emptySW keyK [0]) keyK 10 10 1).2.2.2
      (by norm_num)⟩

/-! ### Repeated info queries (claim C10) -/

/-- Counterexample to claim C10: with the log `[0]`, window `10` and
limit `5`, `get_rate_limit_info` at time `1` reports `remaining = 4`,
and a second call at time `20` — with no intervening check — reports
`remaining = 5`: the reported remaining changed because the entry
expired between the two queries. -/
theorem getinfo_repeat_cex :
    (get_rate_limit_info noFail (setKey emptySW keyK [0]) 0 keyK 1 10
      5).1.remaining = 4 ∧
    (get_rate_limit_info noFail
      (get_rate_limit_info noFail (setKey emptySW keyK [0]) 0 keyK 1 10
        5).2.1 0 keyK 20 10 5).1.remaining = 5 := by
  norm_num [get_rate_limit_info, noFail, setKey, emptySW, zremrangebyscore,
    zcard, zoldest, pyInt, List.min?, List.foldl, min_def]

/-- Claim C10 (amended): `get_rate_limit_info` never adds an entry to
any key's log; repeating it at the same instant returns the identical
record; and across a later instant, with no intervening check, the
reported `remaining` can only grow (entries may expire), never
shrink. -/
theorem getinfo_no_add_monotone :
    (∀ (store : SWStore) (key k' : String) (now : ℚ) (w m : ℤ) (t : ℚ),
      t ∈ (get_rate_limit_info noFail store 0 key now w m).2.1 k' →
      t ∈ store k')
    ∧ (∀ (store : SWStore) (key : String) (now : ℚ) (w m : ℤ),
      (get_rate_limit_info noFail
          (get_rate_limit_info noFail store 0 key now w m).2.1 0 key now w
          m).1
        = (get_rate_limit_info noFail store 0 key now w m).1)
    ∧ (∀ (store : SWStore) (key : String) (now now' : ℚ) (w m : ℤ),
      now ≤ now' →
      (get_rate_limit_info noFail store 0 key now w m).1.remaining ≤
        (get_rate_limit_info noFail
          (get_rate_limit_info noFail store 0 key now w m).2.1 0 key now' w
          m).1.remaining) := by
  have hidem : ∀ (l : Entries) (b : ℚ),
      zremrangebyscore (zremrangebyscore l 0 b) 0 b
        = zremrangebyscore l 0 b :=
    fun l b => List.filter_eq_self.mpr
      (fun a ha => (List.mem_filter.mp ha).2)
  refine ⟨?_, ?_, ?_⟩
  · intro store key k' now w m t ht
    simp only [get_rate_limit_info, noFail, Bool.false_eq_true, if_false,
      setKey] at ht
    by_cases hk : k' = key
    · rw [if_pos hk] at ht
      rw [hk]
      exact List.mem_of_mem_filter ht
    · rwa [if_neg hk] at ht
  · intro store key now w m
    simp only [get_rate_limit_info, noFail, Bool.false_eq_true, if_false,
      setKey, eq_self_iff_true, ite_true]
    rw [hidem]
  · intro store key now now' w m hle
    simp only [get_rate_limit_info, noFail, Bool.false_eq_true, if_false,
      setKey, eq_self_iff_true, ite_true, zcard]
    have hlen := List.length_filter_le
      (fun t => decide ¬ ((0 : ℚ) ≤ t ∧ t ≤ now' - (w : ℚ)))
      (zremrangebyscore (store key) 0 (now - (w : ℚ)))
    refine max_le_max (le_refl 0) ?_
    simp only [zremrangebyscore] at hlen ⊢
    omega

/-- Witness for `getinfo_no_add_monotone`: the remaining reported at
time `1` (namely `4`) is at most the remaining the repeated query
reports at time `20` (namely `5`). -/
theorem getinfo_no_add_monotone_witness :
    (1 : ℚ) ≤ 20 ∧
    (get_rate_limit_info noFail (setKey emptySW keyK [0]) 0 keyK 1 10
      5).1.remaining ≤
      (get_rate_limit_info noFail
        (get_rate_limit_info noFail (setKey emptySW keyK [0]) 0 keyK 1 10
          5).2.1 0 keyK 20 10 5).1.remaining :=
  ⟨by norm_num,
    getinfo_no_add_monotone.2.2 (setKey emptySW keyK [0]) keyK 1 20 10 5
      (by norm_num)⟩
